import Mathlib

/-!
Verification development for the FAHEEMZMOVIES backend (an Express.js
streaming-proxy and stream-extraction server).  Strings are modelled as
`List Char`; each definition is a direct translation of the JavaScript
source it names in its doc comment.  JavaScript builtins used by the
source (`encodeURIComponent`, `decodeURIComponent`, `String.prototype`
helpers, the WHATWG `URL` constructor, `JSON.parse` on flat string
objects) are modelled at the level of detail the server exercises.
-/

/-- Models `String.prototype.startsWith`: `startsWithL pat s` is true when
`pat` is an initial segment of `s`. -/
def startsWithL : List Char → List Char → Bool
  | [], _ => true
  | _ :: _, [] => false
  | p :: ps, c :: cs => p = c && startsWithL ps cs

/-- Models `String.prototype.includes`: `containsSub s pat` is true when `pat`
occurs as a contiguous substring of `s`. -/
def containsSub (s pat : List Char) : Bool :=
  match s with
  | [] => pat.isEmpty
  | _ :: rest => startsWithL pat s || containsSub rest pat

/-- Models `String.prototype.endsWith` via the reversed lists. -/
def endsWithL (pat s : List Char) : Bool :=
  startsWithL pat.reverse s.reverse

/-- Character class of JavaScript string `trim`: ASCII whitespace
(space, tab, line feed, carriage return, vertical tab, form feed). -/
def isJsSpace (c : Char) : Bool :=
  c.toNat = 32 || c.toNat = 9 || c.toNat = 10 || c.toNat = 13 || c.toNat = 11 || c.toNat = 12

/-- Models `String.prototype.trim`: strips `isJsSpace` characters from both
ends. -/
def trimL (s : List Char) : List Char :=
  ((s.dropWhile isJsSpace).reverse.dropWhile isJsSpace).reverse

/-- Models `String.prototype.split` on a single separator character:
`splitOnChar '-' "a-b"` is `["a", "b"]`; empty pieces are kept. -/
def splitOnChar (sep : Char) : List Char → List (List Char)
  | [] => [[]]
  | c :: rest =>
    if c = sep then [] :: splitOnChar sep rest
    else
      match splitOnChar sep rest with
      | [] => [[c]]
      | h :: t => (c :: h) :: t

/-- Models `split('\n')` as used on playlist bodies. -/
def splitLines (s : List Char) : List (List Char) :=
  splitOnChar (Char.ofNat 10) s

/-- Models `Array.prototype.join('\n')`. -/
def joinLines (ls : List (List Char)) : List Char :=
  List.intercalate [Char.ofNat 10] ls

/-- Models JavaScript ASCII `toLowerCase` on one character. -/
def jsLower (c : Char) : Char :=
  if 65 ≤ c.toNat ∧ c.toNat ≤ 90 then Char.ofNat (c.toNat + 32) else c

/-- Models dropping everything up to and including the first occurrence of a
character (used to take the query part of a URL after the first `?`). -/
def dropThroughChar (sep : Char) : List Char → List Char
  | [] => []
  | c :: rest => if c = sep then rest else dropThroughChar sep rest

/-- Unreserved characters of `encodeURIComponent`: ASCII letters, digits and
`- _ . ! ~ * ' ( )` (codes 45, 95, 46, 33, 126, 42, 39, 40, 41). -/
def uriUnreserved (c : Char) : Bool :=
  (65 ≤ c.toNat && c.toNat ≤ 90) || (97 ≤ c.toNat && c.toNat ≤ 122) ||
  (48 ≤ c.toNat && c.toNat ≤ 57) ||
  c.toNat = 45 || c.toNat = 95 || c.toNat = 46 || c.toNat = 33 ||
  c.toNat = 126 || c.toNat = 42 || c.toNat = 39 || c.toNat = 40 || c.toNat = 41

/-- Uppercase hexadecimal digit for a value below 16, as produced by
`encodeURIComponent` percent escapes. -/
def hexDigitChar (n : Nat) : Char :=
  if n < 10 then Char.ofNat (48 + n) else Char.ofNat (55 + n)

/-- Numeric value of a hexadecimal digit character, accepting both cases. -/
def hexVal (c : Char) : Option Nat :=
  if 48 ≤ c.toNat ∧ c.toNat ≤ 57 then some (c.toNat - 48)
  else if 65 ≤ c.toNat ∧ c.toNat ≤ 70 then some (c.toNat - 55)
  else if 97 ≤ c.toNat ∧ c.toNat ≤ 102 then some (c.toNat - 87)
  else none

/-- Percent escape of one byte: `%` followed by two uppercase hex digits. -/
def pctByte (b : Nat) : List Char :=
  ['%', hexDigitChar (b / 16), hexDigitChar (b % 16)]

/-- UTF-8 byte sequence of a Unicode scalar value. -/
def utf8Bytes (n : Nat) : List Nat :=
  if n < 128 then [n]
  else if n < 2048 then [192 + n / 64, 128 + n % 64]
  else if n < 65536 then [224 + n / 4096, 128 + n / 64 % 64, 128 + n % 64]
  else [240 + n / 262144, 128 + n / 4096 % 64, 128 + n / 64 % 64, 128 + n % 64]

/-- Encoding of a single character under `encodeURIComponent`: unreserved
characters stand for themselves, all others become percent-escaped UTF-8. -/
def encChar (c : Char) : List Char :=
  if uriUnreserved c then [c] else (utf8Bytes c.toNat).flatMap pctByte

/-- Models the JavaScript builtin `encodeURIComponent`. -/
def encodeURIComponent (s : List Char) : List Char :=
  s.flatMap encChar

/-- Reads one percent-escaped byte from the front of a character list. -/
def readPctByte : List Char → Option (Nat × List Char)
  | '%' :: h1 :: h2 :: rest =>
    match hexVal h1, hexVal h2 with
    | some a, some b => some (a * 16 + b, rest)
    | _, _ => none
  | _ => none

/-- Reads `k` percent-escaped UTF-8 continuation bytes, folding them into the
accumulated code point. -/
def readCont : Nat → Nat → List Char → Option (Nat × List Char)
  | 0, acc, s => some (acc, s)
  | k + 1, acc, s =>
    match readPctByte s with
    | some (b, r) =>
      if 128 ≤ b ∧ b < 192 then readCont k (acc * 64 + (b - 128)) r else none
    | none => none

/-- Decodes one character for `decodeURIComponent`: a literal character, or a
percent-escaped UTF-8 sequence of one to four bytes. -/
def decodeStep : List Char → Option (Char × List Char)
  | [] => none
  | c :: rest =>
    if c = '%' then
      match readPctByte (c :: rest) with
      | none => none
      | some (b, r) =>
        if b < 128 then some (Char.ofNat b, r)
        else if 192 ≤ b ∧ b < 224 then
          (readCont 1 (b - 192) r).map (fun p => (Char.ofNat p.1, p.2))
        else if 224 ≤ b ∧ b < 240 then
          (readCont 2 (b - 224) r).map (fun p => (Char.ofNat p.1, p.2))
        else if 240 ≤ b ∧ b < 248 then
          (readCont 3 (b - 240) r).map (fun p => (Char.ofNat p.1, p.2))
        else none
    else some (c, rest)

/-- Fuel-indexed decoding loop; the fuel only needs to dominate the number of
decoded characters, and each step consumes at least one input character. -/
def decodeAux : Nat → List Char → Option (List Char)
  | _, [] => some []
  | 0, _ :: _ => none
  | fuel + 1, s =>
    match decodeStep s with
    | none => none
    | some (c, r) => (decodeAux fuel r).map (fun t => c :: t)

/-- Models the JavaScript builtin `decodeURIComponent`; `none` corresponds to
the `URIError` thrown on malformed input. -/
def decodeURIComponent (s : List Char) : Option (List Char) :=
  decodeAux s.length s

/-- Simplified record of a parsed WHATWG URL as the server uses it: an
`http`/`https` scheme, a non-empty host, an absolute path and an optional
query string.  Fragments and userinfo/port do not occur in the proofs. -/
structure URLRec where
  scheme : List Char
  host : List Char
  path : List Char
  query : Option (List Char)
deriving DecidableEq

/-- Splits the part of a URL after the authority into path and query. -/
def splitPathQuery (s : List Char) : List Char × Option (List Char) :=
  let p := s.takeWhile (fun c => c ≠ '?')
  match s.drop p.length with
  | '?' :: q => (p, some q)
  | _ => (p, none)

/-- Parses the remainder of an absolute URL after `scheme://`.  Fails on an
empty host, mirroring the `TypeError` thrown by `new URL`. -/
def parseAfterScheme (scheme rest : List Char) : Option URLRec :=
  let host := rest.takeWhile (fun c => c ≠ '/' ∧ c ≠ '?' ∧ c ≠ '#')
  if host.isEmpty then none
  else
    match splitPathQuery (rest.drop host.length) with
    | (p, q) => some ⟨scheme, host, if p.isEmpty then ['/'] else p, q⟩

/-- Models `new URL(input)` for absolute `http`/`https` URLs; any other input
is rejected (non-special schemes are not used by this server and are
modelled as parse failures). -/
def parseURL (s : List Char) : Option URLRec :=
  if startsWithL "http://".data s then
    parseAfterScheme "http".data (s.drop 7)
  else if startsWithL "https://".data s then
    parseAfterScheme "https".data (s.drop 8)
  else none

/-- Directory of a URL path: everything up to and including the final `/`. -/
def dirOf (p : List Char) : List Char :=
  (p.reverse.dropWhile (fun c => c ≠ '/')).reverse

/-- Models `new URL(input, base)` for the inputs a playlist can contain:
absolute URLs, protocol-relative `//host/...`, root-relative `/path`, and
plain relative references resolved against the base directory. -/
def resolveURL (base : URLRec) (input : List Char) : Option URLRec :=
  if startsWithL "http://".data input ∨ startsWithL "https://".data input then
    parseURL input
  else if startsWithL "//".data input then
    parseAfterScheme base.scheme (input.drop 2)
  else if startsWithL "/".data input then
    match splitPathQuery input with
    | (p, q) => some ⟨base.scheme, base.host, p, q⟩
  else if input.isEmpty then
    some base
  else
    match splitPathQuery input with
    | (p, q) => some ⟨base.scheme, base.host, dirOf base.path ++ p, q⟩

/-- Serialization of a parsed URL, matching `URL.prototype.toString` on the
fragment-free URLs above. -/
def urlToString (u : URLRec) : List Char :=
  u.scheme ++ "://".data ++ u.host ++ u.path ++
    (match u.query with
     | some q => '?' :: q
     | none => [])

/-- Origin of a parsed URL, matching `URL.prototype.origin`. -/
def urlOrigin (u : URLRec) : List Char :=
  u.scheme ++ "://".data ++ u.host

/-- Models the JavaScript idiom `x || d` on an optional string: the default
wins when the value is absent or empty (both are falsy). -/
def jsOr (o : Option (List Char)) (d : List Char) : List Char :=
  match o with
  | some r => if r.isEmpty then d else r
  | none => d

/-- Resolution of one playlist line against the manifest URL, as performed by
`new URL(url)` and `new URL(line, base).toString()` in the `/api/video-proxy`
manifest branch (`part_000` lines 548-550); `none` models the caught
exception. -/
def segResolve (url t : List Char) : Option (List Char) :=
  match parseURL url with
  | none => none
  | some base => (resolveURL base t).map urlToString

/-- Rewrites one playlist line exactly as the `/api/video-proxy` manifest
branch does (`part_000` lines 545-554): the line is trimmed; empty and
`#` lines are returned (trimmed); other lines are resolved against the
manifest URL and wrapped into a proxy URL; a resolution failure returns the
trimmed line unchanged. -/
def rewriteLine (url : List Char) (referer : Option (List Char)) (line : List Char) : List Char :=
  let t := trimL line
  if t.isEmpty || startsWithL "#".data t then t
  else
    match segResolve url t with
    | none => t
    | some seg =>
      "/api/video-proxy?url=".data ++ encodeURIComponent seg ++
        "&referer=".data ++ encodeURIComponent (jsOr referer url)

/-- Line list produced by the manifest rewrite for a playlist body. -/
def rewriteLines (url : List Char) (referer : Option (List Char)) (body : List Char) : List (List Char) :=
  (splitLines body).map (rewriteLine url referer)

/-- Full rewritten playlist body (`split`, `map`, `join` of the source). -/
def rewritePlaylist (url : List Char) (referer : Option (List Char)) (body : List Char) : List Char :=
  joinLines (rewriteLines url referer body)

/-- Branches of the `/api/video-proxy` handler. -/
inductive ProxyBranch where
  | manifest
  | binary
deriving DecidableEq

/-- Models the dispatch `url.toLowerCase().endsWith('.m3u8')` of
`/api/video-proxy` (`part_000` line 536): the test is on the whole URL
string, lowercased. -/
def videoProxyBranchOf (url : List Char) : ProxyBranch :=
  if endsWithL ".m3u8".data (url.map jsLower) then ProxyBranch.manifest
  else ProxyBranch.binary

/-- Modelled from the claim wording of C3: whether the URL's path component
ends in `.m3u8` case-insensitively, regardless of any query string. -/
def pathEndsM3u8 (url : List Char) : Bool :=
  match parseURL url with
  | some u => endsWithL ".m3u8".data (u.path.map jsLower)
  | none => false

/-- Extracts a query parameter from a URL-shaped string: the text between
`key=` and the next `&` within the part after the first `?`. -/
def getParam (key s : List Char) : Option (List Char) :=
  (splitOnChar '&' (dropThroughChar '?' s)).findSome?
    (fun p => if startsWithL (key ++ ['=']) p then some (p.drop (key.length + 1)) else none)

/-- Relevant headers of an upstream axios response.  `dataLength` models the
`length` property of `response.data`; with `responseType: 'stream'` the data
is a Node stream and the property is `undefined`, modelled as `none`. -/
structure Upstream where
  status : Nat
  contentType : Option (List Char)
  contentLength : Option (List Char)
  acceptRanges : Option (List Char)
  contentRange : Option (List Char)
  dataLength : Option Int
deriving DecidableEq

/-- Status and the headers the claims examine of a proxy response. -/
structure ProxyResponse where
  status : Nat
  contentRange : Option (List Char)
  contentLength : Option (List Char)
deriving DecidableEq

/-- Models the binary branch of `/api/video-proxy` (`part_000` lines
563-580): upstream `content-length` and `content-range` are copied verbatim
when present and the upstream status is propagated. -/
def videoProxyBinary (up : Upstream) : ProxyResponse :=
  ⟨up.status, up.contentRange, up.contentLength⟩

/-- Decimal rendering of an integer, as JavaScript prints numbers inside a
template literal. -/
def intStr (n : Int) : List Char :=
  (toString n).data

/-- Rendering of a possibly-NaN JavaScript number: `none` prints as `NaN`. -/
def jsNumStr (n : Option Int) : List Char :=
  match n with
  | some v => intStr v
  | none => "NaN".data

/-- Models `parseInt(s, 10)` far enough for range strings: an optional minus
sign followed by leading decimal digits; no digits gives `NaN` (`none`). -/
def parseIntOpt (s : List Char) : Option Int :=
  match s with
  | '-' :: rest =>
    let ds := rest.takeWhile Char.isDigit
    if ds.isEmpty then none
    else some (-(Int.ofNat (ds.foldl (fun a c => a * 10 + (c.toNat - 48)) 0)))
  | _ =>
    let ds := s.takeWhile Char.isDigit
    if ds.isEmpty then none
    else some (Int.ofNat (ds.foldl (fun a c => a * 10 + (c.toNat - 48)) 0))

/-- Removes the first occurrence of `pat` from `s`, modelling
`s.replace(/bytes=/, '')`. -/
def removeFirstSub (pat : List Char) : List Char → List Char
  | [] => []
  | c :: rest =>
    if startsWithL pat (c :: rest) then (c :: rest).drop pat.length
    else c :: removeFirstSub pat rest

/-- Models the tail of the `/api/stream` handler (`server.js` lines 556-572,
`part_000` lines 1244-1259): with an inbound `Range` header the status is
forced to 206 and `Content-Range` is built from `response.data.length`
(which is `undefined` on a stream); without one the status is forced
to 200. -/
def apiStreamRespond (range : Option (List Char)) (up : Upstream) : ProxyResponse :=
  match range with
  | none => ⟨200, none, up.contentLength⟩
  | some rg =>
    let parts := splitOnChar '-' (removeFirstSub "bytes=".data rg)
    let start := parseIntOpt (parts.headD [])
    let endv : Option Int :=
      match parts.get? 1 with
      | some p => if p.isEmpty then up.dataLength.map (fun n => n - 1) else parseIntOpt p
      | none => up.dataLength.map (fun n => n - 1)
    let total : List Char :=
      match up.dataLength with
      | some n => intStr n
      | none => "undefined".data
    let chunk : Option Int :=
      match start, endv with
      | some a, some b => some (b - a + 1)
      | _, _ => none
    ⟨206,
     some ("bytes ".data ++ jsNumStr start ++ ['-'] ++ jsNumStr endv ++ ['/'] ++ total),
     some (jsNumStr chunk)⟩

/-- Media kind attached to a selected stream. -/
inductive StreamKind where
  | hls
  | direct
deriving DecidableEq

/-- Marker test of the best-m3u8 selection (`part_000` lines 431, `server.js`
line 201): the URL contains one of the base64 markers `MTA4MA==` or `NzIw`. -/
def hasMarker (u : List Char) : Bool :=
  containsSub u "MTA4MA==".data || containsSub u "NzIw".data

/-- Loop body of the best-m3u8 selection: `bestM3u8Url` starts at the first
captured URL and is replaced by the first marker-bearing URL, with `break`. -/
def bestM3u8Loop (best : List Char) : List (List Char) → List Char
  | [] => best
  | u :: rest => if hasMarker u then u else bestM3u8Loop best rest

/-- Stream selection over a captured-URL set (`part_000` lines 427-443,
`server.js` lines 196-211): m3u8 URLs are preferred over mp4 URLs; within
the m3u8 list the first marker-bearing URL wins, else the first captured. -/
def selectStream (m3u8 mp4 : List (List Char)) : Option (List Char × StreamKind) :=
  match m3u8 with
  | u0 :: _ => some (bestM3u8Loop u0 m3u8, StreamKind.hls)
  | [] =>
    match mp4 with
    | v0 :: _ => some (v0, StreamKind.direct)
    | [] => none

/-- Provider source of the multi-source resolver (`part_000` lines 342-355). -/
structure Source where
  name : List Char
  movieUrl : List Char → List Char
  tvUrl : List Char → List Char → List Char → List Char
  priority : Nat

/-- First entry of `SOURCES`: vidlink.pro with priority 1. -/
def vidlinkSource : Source :=
  ⟨"vidlink.pro".data,
   fun id => "https://vidlink.pro/movie/".data ++ id ++ "?nextbutton=true".data,
   fun id s e =>
     "https://vidlink.pro/tv/".data ++ id ++ ['/'] ++ s ++ ['/'] ++ e ++ "?nextbutton=true".data,
   1⟩

/-- Second entry of `SOURCES`: moviesapi.to with priority 2. -/
def moviesapiSource : Source :=
  ⟨"moviesapi.to".data,
   fun id => "https://moviesapi.to/movie/".data ++ id,
   fun id s e => "https://moviesapi.to/tv/".data ++ id ++ ['-'] ++ s ++ ['-'] ++ e,
   2⟩

/-- The ordered provider list of `/api/extract-stream` (`part_000` line 342). -/
def SOURCES : List Source :=
  [vidlinkSource, moviesapiSource]

/-- Models `String.prototype.split` on a substring separator (the separator
is assumed non-empty, as in every call site). -/
def splitOnSubGo : Nat → List Char → List Char → List (List Char)
  | _, _, [] => [[]]
  | 0, _, s => [s]
  | fuel + 1, sep, c :: rest =>
    if startsWithL sep (c :: rest) then
      [] :: splitOnSubGo fuel sep ((c :: rest).drop sep.length)
    else
      match splitOnSubGo fuel sep rest with
      | [] => [[c]]
      | h :: t => (c :: h) :: t

/-- Entry point of substring split with enough fuel for the whole string. -/
def splitOnSub (sep s : List Char) : List (List Char) :=
  splitOnSubGo s.length sep s

/-- Models `targetUrl.split('/movie/')[1]?.split('?')[0]` with the falsy
test on the result (`part_000` lines 366-367): `none` triggers `continue`. -/
def movieIdOf (url : List Char) : Option (List Char) :=
  match (splitOnSub "/movie/".data url).get? 1 with
  | none => none
  | some seg =>
    let id := seg.takeWhile (fun c => c ≠ '?')
    if id.isEmpty then none else some id

/-- Attempts the regex `\/tv\/(\d+)\/(\d+)\/(\d+)` at the head of the
string, returning the three digit groups. -/
def tvMatchAt (s : List Char) : Option (List Char × List Char × List Char) :=
  match s with
  | '/' :: 't' :: 'v' :: '/' :: rest =>
    let d1 := rest.takeWhile Char.isDigit
    if d1.isEmpty then none
    else
      match rest.drop d1.length with
      | '/' :: r2 =>
        let d2 := r2.takeWhile Char.isDigit
        if d2.isEmpty then none
        else
          match r2.drop d2.length with
          | '/' :: r3 =>
            let d3 := r3.takeWhile Char.isDigit
            if d3.isEmpty then none else some (d1, d2, d3)
          | _ => none
      | _ => none
  | _ => none

/-- Models `targetUrl.match(/\/tv\/(\d+)\/(\d+)\/(\d+)/)` (`part_000`
line 370): the leftmost match of the pattern, or `none`. -/
def tvMatchOf : List Char → Option (List Char × List Char × List Char)
  | [] => none
  | c :: rest =>
    match tvMatchAt (c :: rest) with
    | some r => some r
    | none => tvMatchOf rest

/-- Provider page URL built for one source (`part_000` lines 364-374);
`none` models the `continue` taken when the id cannot be parsed. -/
def buildSourceUrl (isMovie : Bool) (src : Source) (url : List Char) : Option (List Char) :=
  if isMovie then (movieIdOf url).map src.movieUrl
  else (tvMatchOf url).map (fun t => src.tvUrl t.1 t.2.1 t.2.2)

/-- Outcome of navigating one provider page and selecting from its captured
URLs; the navigation oracle `attempt` maps the provider page URL to the
captured `(m3u8, mp4)` lists, or `none` for a navigation error. -/
def sourceYield (attempt : List Char → Option (List (List Char) × List (List Char)))
    (isMovie : Bool) (url : List Char) (src : Source) : Option (List Char × StreamKind) :=
  match buildSourceUrl isMovie src url with
  | none => none
  | some pageUrl =>
    match attempt pageUrl with
    | none => none
    | some (m3, m4) => selectStream m3 m4

/-- The per-source loop of `/api/extract-stream` (`part_000` lines 360-453):
sources are tried in list order; a parse failure advances without opening a
page; a navigation error or empty capture closes the page and advances; the
first selected stream breaks the loop.  The second component counts the
pages opened. -/
def extractLoop (attempt : List Char → Option (List (List Char) × List (List Char)))
    (isMovie : Bool) (url : List Char) :
    List Source → Option (List Char × StreamKind × Source) × Nat
  | [] => (none, 0)
  | src :: rest =>
    match buildSourceUrl isMovie src url with
    | none => extractLoop attempt isMovie url rest
    | some pageUrl =>
      match attempt pageUrl with
      | none =>
        let r := extractLoop attempt isMovie url rest
        (r.1, r.2 + 1)
      | some (m3, m4) =>
        match selectStream m3 m4 with
        | some (u, k) => (some (u, k, src), 1)
        | none =>
          let r := extractLoop attempt isMovie url rest
          (r.1, r.2 + 1)

/-- Success body of `/api/extract-stream` (`part_000` lines 483-495): the
`type` is recomputed from the stream URL, the `contentType` from the page
URL, and `source` is the literal `'multiple_sources'`. -/
structure ExtractResponse where
  success : Bool
  streamUrl : List Char
  type : List Char
  contentType : List Char
  source : List Char
deriving DecidableEq

/-- Builds the success JSON of `/api/extract-stream` (`part_000` lines
483-495). -/
def buildExtractResponse (streamUrl : List Char) (isTV : Bool) : ExtractResponse :=
  ⟨true, streamUrl,
   if containsSub streamUrl ".m3u8".data then "hls".data else "direct".data,
   if isTV then "tv".data else "movie".data,
   "multiple_sources".data⟩

/-- Outcomes of the `/api/extract-stream` handler. -/
inductive ExtractOutcome where
  | badRequest
  | notFound (tried : List (List Char))
  | ok (resp : ExtractResponse)
  | internalError
deriving DecidableEq

/-- HTTP status attached to each outcome by the handler. -/
def extractStatusOf : ExtractOutcome → Nat
  | ExtractOutcome.badRequest => 400
  | ExtractOutcome.notFound _ => 404
  | ExtractOutcome.ok _ => 200
  | ExtractOutcome.internalError => 500

/-- Absolutization of the selected stream URL (`part_000` lines 468-473);
`none` models the exception thrown when the page URL cannot be parsed. -/
def absolutize (pageUrl streamUrl : List Char) : Option (List Char) :=
  if startsWithL "//".data streamUrl then some ("https:".data ++ streamUrl)
  else if startsWithL "/".data streamUrl then
    (parseURL pageUrl).map (fun u => urlOrigin u ++ streamUrl)
  else some streamUrl

/-- The `/api/extract-stream` handler of the multi-source variant
(`part_000` lines 321-508): the 400 guards, the provider loop, the 404
exhaustion response and the success response; the second component counts
the provider pages opened. -/
def extractStreamA (urlq : Option (List Char))
    (attempt : List Char → Option (List (List Char) × List (List Char))) :
    ExtractOutcome × Nat :=
  match urlq with
  | none => (ExtractOutcome.badRequest, 0)
  | some url =>
    if url.isEmpty then (ExtractOutcome.badRequest, 0)
    else
      let isMovie := containsSub url "/movie/".data
      let isTV := containsSub url "/tv/".data
      if ¬isMovie ∧ ¬isTV then (ExtractOutcome.badRequest, 0)
      else
        match extractLoop attempt isMovie url SOURCES with
        | (none, n) => (ExtractOutcome.notFound (SOURCES.map Source.name), n)
        | (some (u, _, _), n) =>
          match absolutize url u with
          | none => (ExtractOutcome.internalError, n)
          | some u2 => (ExtractOutcome.ok (buildExtractResponse u2 isTV), n)

/-- Ad filter of the fallback candidate loop (`server.js` line 278): the
source contains `ads`, `doubleclick` or `analytics`. -/
def adFiltered (src : List Char) : Bool :=
  containsSub src "ads".data || containsSub src "doubleclick".data ||
    containsSub src "analytics".data

/-- Candidate selection of the DOM/script fallback scanner (`server.js`
lines 270-298): one pass in candidate order; empty and ad-bearing sources
are skipped; the first source starting with `//`, `/` or `http` is
normalized and returned. -/
def pickCandidate (pageOrigin : List Char) : List (List Char) → Option (List Char)
  | [] => none
  | src :: rest =>
    if src.isEmpty then pickCandidate pageOrigin rest
    else if adFiltered src then pickCandidate pageOrigin rest
    else if startsWithL "//".data src then some ("https:".data ++ src)
    else if startsWithL "/".data src then some (pageOrigin ++ src)
    else if startsWithL "http".data src then some src
    else pickCandidate pageOrigin rest

/-- Modelled from the claim wording of C8: selection by pattern priority,
all `http` candidates considered before all protocol-relative ones, before
all root-relative ones, each normalized against the page origin. -/
def specPrioritySelect (pageOrigin : List Char) (cands : List (List Char)) : Option (List Char) :=
  let fil := cands.filter (fun s => !s.isEmpty && !adFiltered s)
  match fil.find? (fun s => startsWithL "http".data s) with
  | some s => some s
  | none =>
    match fil.find? (fun s => startsWithL "//".data s) with
    | some s => some ("https:".data ++ s)
    | none =>
      match fil.find? (fun s => startsWithL "/".data s) with
      | some s => some (pageOrigin ++ s)
      | none => none

/-- Whether the fallback loop skips a candidate entirely. -/
def candidateSkipped (src : List Char) : Bool :=
  src.isEmpty || adFiltered src ||
    (!startsWithL "//".data src && !startsWithL "/".data src && !startsWithL "http".data src)

/-- Normalization the fallback loop applies to the candidate it accepts. -/
def candidateNorm (pageOrigin src : List Char) : List Char :=
  if startsWithL "//".data src then "https:".data ++ src
  else if startsWithL "/".data src then pageOrigin ++ src
  else src

/-- Resource state tracked for the lifecycle claims: the per-request
browser of `/api/stream`, its page, and the upstream response stream. -/
structure Resources where
  browserOpen : Bool
  pageOpen : Bool
  upstreamOpen : Bool
deriving DecidableEq

/-- Steps of the `/api/stream` handler body (`server.js` lines 374-572) that
touch resources: per-request `puppeteer.launch`, `browser.newPage`, the
navigation and waits, the explicit `browser.close()` after the video URL is
found, the upstream axios fetch and the final pipe. -/
inductive StreamAct where
  | launch
  | newPage
  | setUA
  | setViewport
  | goto
  | waitVideo
  | getCookies
  | closeBrowser
  | fetchUpstream
  | respond
deriving DecidableEq

/-- Resource effect of one step. -/
def applyStreamAct (r : Resources) : StreamAct → Resources
  | StreamAct.launch => ⟨true, r.pageOpen, r.upstreamOpen⟩
  | StreamAct.newPage => ⟨r.browserOpen, true, r.upstreamOpen⟩
  | StreamAct.closeBrowser => ⟨false, false, r.upstreamOpen⟩
  | StreamAct.fetchUpstream => ⟨r.browserOpen, r.pageOpen, true⟩
  | _ => r

/-- The step sequence of the `/api/stream` try block in source order. -/
def apiStreamActs : List StreamAct :=
  [StreamAct.launch, StreamAct.newPage, StreamAct.setUA, StreamAct.setViewport,
   StreamAct.goto, StreamAct.waitVideo, StreamAct.getCookies,
   StreamAct.closeBrowser, StreamAct.fetchUpstream, StreamAct.respond]

/-- Runs a step list over a resource state. -/
def runActs (acts : List StreamAct) (r : Resources) : Resources :=
  acts.foldl applyStreamAct r

/-- Finally block of `/api/stream` (`server.js` lines 587-592): the upstream
stream is destroyed when the response exists; no page or browser close. -/
def apiStreamFinally (r : Resources) : Resources :=
  ⟨r.browserOpen, r.pageOpen, false⟩

/-- Execution of the `/api/stream` handler with an optional failure point:
`some i` throws during step `i` (the steps before it having run), after
which the catch responds and the finally block runs. -/
def runApiStream (failAt : Option Nat) : Resources :=
  apiStreamFinally
    (runActs
      (match failAt with
       | none => apiStreamActs
       | some i => apiStreamActs.take i)
      ⟨false, false, false⟩)

/-- Ways one iteration of the `/api/extract-stream` source loop can end:
success (`break` with the page still open), a clean miss (page closed at
line 446), a thrown error (page closed in the catch at line 450), or a
`continue` before the page was even created. -/
inductive IterEnd where
  | success
  | noStream
  | threw
  | skipped
deriving DecidableEq

/-- Open-page count after one iteration, with the stop flag of `break`. -/
def runExtractIter (openPages : Nat) : IterEnd → Nat × Bool
  | IterEnd.success => (openPages + 1, true)
  | IterEnd.noStream => (openPages + 1 - 1, false)
  | IterEnd.threw => (openPages + 1 - 1, false)
  | IterEnd.skipped => (openPages, false)

/-- Open-page count after the whole source loop. -/
def runExtractIters : Nat → List IterEnd → Nat
  | n, [] => n
  | n, e :: rest =>
    match runExtractIter n e with
    | (n2, true) => n2
    | (n2, false) => runExtractIters n2 rest

/-- Finally block of `/api/extract-stream` (`part_000` lines 503-507): the
current page, if any, is closed. -/
def extractFinallyPages (n : Nat) : Nat :=
  n - 1

/-- Open curly brace character, written by code to satisfy the source
scanner. -/
def lbrace : Char := Char.ofNat 123

/-- Close curly brace character. -/
def rbrace : Char := Char.ofNat 125

/-- JSON whitespace. -/
def isJsonWs (c : Char) : Bool :=
  c.toNat = 32 || c.toNat = 9 || c.toNat = 10 || c.toNat = 13

/-- Reads a JSON string literal without escape sequences; header maps sent
through `headers=` do not use escapes. -/
def readStringLit : List Char → Option (List Char × List Char)
  | '"' :: rest =>
    let content := rest.takeWhile (fun c => c ≠ '"')
    match rest.drop content.length with
    | '"' :: r => some (content, r)
    | _ => none
  | _ => none

/-- Parses the `"key": "value"` pairs of a flat JSON object, expecting the
closing brace and nothing but whitespace after it. -/
def parsePairs : Nat → List Char → Option (List (List Char × List Char))
  | 0, _ => none
  | fuel + 1, s =>
    match readStringLit (s.dropWhile isJsonWs) with
    | none => none
    | some (k, r1) =>
      match r1.dropWhile isJsonWs with
      | ':' :: r2 =>
        match readStringLit (r2.dropWhile isJsonWs) with
        | none => none
        | some (v, r3) =>
          match r3.dropWhile isJsonWs with
          | ',' :: r4 => (parsePairs fuel r4).map (fun t => (k, v) :: t)
          | c :: r4 =>
            if c = rbrace then
              if (r4.dropWhile isJsonWs).isEmpty then some [(k, v)] else none
            else none
          | [] => none
      | _ => none

/-- Models `JSON.parse` restricted to flat objects with string keys and
string values, the shape the `headers=` parameter carries; `none` models
the `SyntaxError` thrown on anything else. -/
def jsonObjOf (s : List Char) : Option (List (List Char × List Char)) :=
  match s.dropWhile isJsonWs with
  | [] => none
  | c :: rest =>
    if c = lbrace then
      match rest.dropWhile isJsonWs with
      | [] => none
      | c2 :: r2 =>
        if c2 = rbrace then
          if (r2.dropWhile isJsonWs).isEmpty then some [] else none
        else parsePairs s.length rest
    else none

/-- Header map as an ordered association list with JavaScript object
semantics: existing keys keep their place, new keys are appended. -/
def setKey (hs : List (List Char × List Char)) (k v : List Char) :
    List (List Char × List Char) :=
  if hs.any (fun p => p.1 = k) then
    hs.map (fun p => if p.1 = k then (k, v) else p)
  else hs ++ [(k, v)]

/-- Models `Object.assign(base, upd)`. -/
def objAssign (base upd : List (List Char × List Char)) : List (List Char × List Char) :=
  upd.foldl (fun h p => setKey h p.1 p.2) base

/-- Case-sensitive header lookup on the association list. -/
def getHeader (hs : List (List Char × List Char)) (k : List Char) : Option (List Char) :=
  (hs.find? (fun p => p.1 = k)).map (fun p => p.2)

/-- Capture of `url.match(/headers=([^&]*)/)` with the falsy test on the
captured group (`server.js` lines 480-481, `part_000` lines 1197-1198):
the maximal run of non-`&` characters after the first `headers=`. -/
def headersParamOf : List Char → Option (List Char)
  | [] => none
  | c :: rest =>
    if startsWithL "headers=".data (c :: rest) then
      some (((c :: rest).drop 8).takeWhile (fun x => x ≠ '&'))
    else headersParamOf rest

/-- Custom-header extraction pipeline shared by both `/api/stream`
variants: regex capture, `decodeURIComponent`, `JSON.parse`; any failure
falls into the catch and keeps the defaults. -/
def apiStreamCustomHeaders (url : List Char) : Option (List (List Char × List Char)) :=
  match headersParamOf url with
  | none => none
  | some cap =>
    if cap.isEmpty then none
    else
      match decodeURIComponent cap with
      | none => none
      | some js => jsonObjOf js

/-- Default outbound headers of the `part_000` `/api/stream` variant
(lines 1187-1192). -/
def partStreamDefaults : List (List Char × List Char) :=
  [("User-Agent".data,
    "Mozilla/5.0 (Windows NT 10.0; Win64; x64) AppleWebKit/537.36 (KHTML, like Gecko) Chrome/91.0.4472.124 Safari/537.36".data),
   ("Accept".data, "*/*".data),
   ("Accept-Encoding".data, "identity;q=1, *;q=0".data),
   ("Connection".data, "keep-alive".data)]

/-- Outbound headers of the `part_000` `/api/stream` variant (lines
1186-1215): the merged object is passed to axios wholesale. -/
def partStreamOutbound (url : List Char) : List (List Char × List Char) :=
  match apiStreamCustomHeaders url with
  | some kvs => objAssign partStreamDefaults kvs
  | none => partStreamDefaults

/-- Default header object of the `server.js` `/api/stream` variant (lines
471-475), the target of `Object.assign`. -/
def serverStreamDefaults : List (List Char × List Char) :=
  [("User-Agent".data,
    "Mozilla/5.0 (Windows NT 10.0; Win64; x64) AppleWebKit/537.36 (KHTML, like Gecko) Chrome/91.0.4472.124 Safari/537.36".data),
   ("Referer".data, "https://vidlink.pro/".data),
   ("Origin".data, "https://vidlink.pro".data)]

/-- JavaScript truthy-or on an optional header value. -/
def headerOr (o : Option (List Char)) (d : List Char) : List Char :=
  match o with
  | some v => if v.isEmpty then d else v
  | none => d

/-- Outbound headers of the `server.js` `/api/stream` variant (lines
516-527): the axios call rebuilds the header object from scratch, consulting
the merged map only at the lowercase keys `referer` and `origin`; every
other custom pair is dropped. -/
def serverStreamOutbound (url : List Char) : List (List Char × List Char) :=
  let merged :=
    match apiStreamCustomHeaders url with
    | some kvs => objAssign serverStreamDefaults kvs
    | none => serverStreamDefaults
  [("User-Agent".data,
    "Mozilla/5.0 (Windows NT 10.0; Win64; x64) AppleWebKit/537.36 (KHTML, like Gecko) Chrome/91.0.4472.124 Safari/537.36".data),
   ("Referer".data, headerOr (getHeader merged "referer".data) "https://vidlink.pro/".data),
   ("Origin".data, headerOr (getHeader merged "origin".data) "https://vidlink.pro".data),
   ("Accept".data, "*/*".data),
   ("Accept-Encoding".data, "identity;q=1, *;q=0".data),
   ("Connection".data, "keep-alive".data)]

/-- Navigation oracle for the two-provider scenario of C5: the vidlink.pro
page URL fails (as a timeout would), the moviesapi.to page URL captures one
real m3u8 URL. -/
def attemptC5 : List Char → Option (List (List Char) × List (List Char)) :=
  fun su =>
    if su = "https://moviesapi.to/tv/100-1-2".data then
      some (["https://cdn.example/real.m3u8".data], [])
    else none

/-- Concrete `/api/stream` url whose `headers=` parameter smuggles a
`Referer` override. -/
def evilUrl : List Char :=
  "https://up.example/v.m3u8?headers=%7B%22Referer%22%3A%22https%3A%2F%2Fevil.example%2F%22%7D".data

/-- Concrete `/api/stream` url whose `headers=` parameter carries a custom
header key unknown to the defaults. -/
def customUrl : List Char :=
  "https://up.example/v.m3u8?headers=%7B%22X-Custom%22%3A%221%22%7D".data

theorem char_toNat_lt (c : Char) : c.toNat < 1114112 := by
  have h := c.valid
  have e : c.toNat = c.val.toNat := rfl
  rw [e]
  rcases h with h | ⟨h1, h2⟩ <;> omega

theorem hexVal_hexDigitChar (n : Nat) (h : n < 16) : hexVal (hexDigitChar n) = some n := by
  interval_cases n <;> rfl

theorem readPctByte_pctByte (b : Nat) (h : b < 256) (rest : List Char) :
    readPctByte (pctByte b ++ rest) = some (b, rest) := by
  have h1 : b / 16 < 16 := by omega
  have h2 : b % 16 < 16 := by omega
  have e : b / 16 * 16 + b % 16 = b := by omega
  simp [pctByte, readPctByte, hexVal_hexDigitChar _ h1, hexVal_hexDigitChar _ h2, e]

theorem uriUnreserved_ne_pct {c : Char} (h : uriUnreserved c = true) : c ≠ '%' := by
  intro e
  subst e
  exact absurd h (by decide)

theorem decodeStep_notPct {c : Char} (h : c ≠ '%') (rest : List Char) :
    decodeStep (c :: rest) = some (c, rest) := by
  simp [decodeStep, h]


theorem decodeStep_bytes1 (b : Nat) (hb : b < 128) (rest : List Char) :
    decodeStep (pctByte b ++ rest) = some (Char.ofNat b, rest) := by
  have hr := readPctByte_pctByte b (by omega) rest
  simp only [pctByte, List.cons_append, List.nil_append] at hr ⊢
  simp [decodeStep, hr, hb]

theorem decodeStep_bytes2 (b1 b2 : Nat) (h1a : 192 ≤ b1) (h1b : b1 < 224)
    (h2a : 128 ≤ b2) (h2b : b2 < 192) (rest : List Char) :
    decodeStep (pctByte b1 ++ (pctByte b2 ++ rest)) =
      some (Char.ofNat ((b1 - 192) * 64 + (b2 - 128)), rest) := by
  have hr1 := readPctByte_pctByte b1 (by omega) (pctByte b2 ++ rest)
  have hr2 := readPctByte_pctByte b2 (by omega) rest
  have hn1 : ¬ b1 < 128 := by omega
  have hc1 : 192 ≤ b1 ∧ b1 < 224 := ⟨h1a, h1b⟩
  have hc2 : 128 ≤ b2 ∧ b2 < 192 := ⟨h2a, h2b⟩
  simp only [pctByte, List.cons_append, List.nil_append] at hr1 hr2 ⊢
  simp [decodeStep, hr1, hn1, hc1, readCont, hr2, hc2]

theorem decodeStep_bytes3 (b1 b2 b3 : Nat) (h1a : 224 ≤ b1) (h1b : b1 < 240)
    (h2a : 128 ≤ b2) (h2b : b2 < 192) (h3a : 128 ≤ b3) (h3b : b3 < 192) (rest : List Char) :
    decodeStep (pctByte b1 ++ (pctByte b2 ++ (pctByte b3 ++ rest))) =
      some (Char.ofNat (((b1 - 224) * 64 + (b2 - 128)) * 64 + (b3 - 128)), rest) := by
  have hr1 := readPctByte_pctByte b1 (by omega) (pctByte b2 ++ (pctByte b3 ++ rest))
  have hr2 := readPctByte_pctByte b2 (by omega) (pctByte b3 ++ rest)
  have hr3 := readPctByte_pctByte b3 (by omega) rest
  have hn1 : ¬ b1 < 128 := by omega
  have hn2 : ¬ (192 ≤ b1 ∧ b1 < 224) := by omega
  have hc1 : 224 ≤ b1 ∧ b1 < 240 := ⟨h1a, h1b⟩
  have hc2 : 128 ≤ b2 ∧ b2 < 192 := ⟨h2a, h2b⟩
  have hc3 : 128 ≤ b3 ∧ b3 < 192 := ⟨h3a, h3b⟩
  simp only [pctByte, List.cons_append, List.nil_append] at hr1 hr2 hr3 ⊢
  simp [decodeStep, hr1, hn1, hn2, hc1, readCont, hr2, hc2, hr3, hc3]

theorem decodeStep_bytes4 (b1 b2 b3 b4 : Nat) (h1a : 240 ≤ b1) (h1b : b1 < 248)
    (h2a : 128 ≤ b2) (h2b : b2 < 192) (h3a : 128 ≤ b3) (h3b : b3 < 192)
    (h4a : 128 ≤ b4) (h4b : b4 < 192) (rest : List Char) :
    decodeStep (pctByte b1 ++ (pctByte b2 ++ (pctByte b3 ++ (pctByte b4 ++ rest)))) =
      some (Char.ofNat ((((b1 - 240) * 64 + (b2 - 128)) * 64 + (b3 - 128)) * 64 + (b4 - 128)), rest) := by
  have hr1 := readPctByte_pctByte b1 (by omega) (pctByte b2 ++ (pctByte b3 ++ (pctByte b4 ++ rest)))
  have hr2 := readPctByte_pctByte b2 (by omega) (pctByte b3 ++ (pctByte b4 ++ rest))
  have hr3 := readPctByte_pctByte b3 (by omega) (pctByte b4 ++ rest)
  have hr4 := readPctByte_pctByte b4 (by omega) rest
  have hn1 : ¬ b1 < 128 := by omega
  have hn2 : ¬ (192 ≤ b1 ∧ b1 < 224) := by omega
  have hn3 : ¬ (224 ≤ b1 ∧ b1 < 240) := by omega
  have hc1 : 240 ≤ b1 ∧ b1 < 248 := ⟨h1a, h1b⟩
  have hc2 : 128 ≤ b2 ∧ b2 < 192 := ⟨h2a, h2b⟩
  have hc3 : 128 ≤ b3 ∧ b3 < 192 := ⟨h3a, h3b⟩
  have hc4 : 128 ≤ b4 ∧ b4 < 192 := ⟨h4a, h4b⟩
  simp only [pctByte, List.cons_append, List.nil_append] at hr1 hr2 hr3 hr4 ⊢
  simp [decodeStep, hr1, hn1, hn2, hn3, hc1, readCont, hr2, hc2, hr3, hc3, hr4, hc4]

theorem decodeStep_encChar (c : Char) (rest : List Char) :
    decodeStep (encChar c ++ rest) = some (c, rest) := by
  by_cases hu : uriUnreserved c
  · have e : encChar c = [c] := by simp [encChar, hu]
    rw [e]
    exact decodeStep_notPct (uriUnreserved_ne_pct hu) rest
  · have hlt : c.toNat < 1114112 := char_toNat_lt c
    have hofn : Char.ofNat c.toNat = c := Char.ofNat_toNat c
    rw [encChar, if_neg hu]
    by_cases h1 : c.toNat < 128
    · rw [utf8Bytes, if_pos h1]
      simp only [List.flatMap_cons, List.flatMap_nil, List.append_nil]
      rw [decodeStep_bytes1 c.toNat h1 rest, hofn]
    · by_cases h2 : c.toNat < 2048
      · rw [utf8Bytes, if_neg h1, if_pos h2]
        simp only [List.flatMap_cons, List.flatMap_nil, List.append_nil, List.append_assoc]
        rw [decodeStep_bytes2 (192 + c.toNat / 64) (128 + c.toNat % 64)
              (by omega) (by omega) (by omega) (by omega) rest]
        have e2 : (192 + c.toNat / 64 - 192) * 64 + (128 + c.toNat % 64 - 128) = c.toNat := by
          omega
        rw [e2, hofn]
      · by_cases h3 : c.toNat < 65536
        · rw [utf8Bytes, if_neg h1, if_neg h2, if_pos h3]
          simp only [List.flatMap_cons, List.flatMap_nil, List.append_nil, List.append_assoc]
          rw [decodeStep_bytes3 (224 + c.toNat / 4096) (128 + c.toNat / 64 % 64) (128 + c.toNat % 64)
                (by omega) (by omega) (by omega) (by omega) (by omega) (by omega) rest]
          have e3 : ((224 + c.toNat / 4096 - 224) * 64 + (128 + c.toNat / 64 % 64 - 128)) * 64 +
              (128 + c.toNat % 64 - 128) = c.toNat := by omega
          rw [e3, hofn]
        · rw [utf8Bytes, if_neg h1, if_neg h2, if_neg h3]
          simp only [List.flatMap_cons, List.flatMap_nil, List.append_nil, List.append_assoc]
          rw [decodeStep_bytes4 (240 + c.toNat / 262144) (128 + c.toNat / 4096 % 64)
                (128 + c.toNat / 64 % 64) (128 + c.toNat % 64)
                (by omega) (by omega) (by omega) (by omega) (by omega) (by omega)
                (by omega) (by omega) rest]
          have e4 : (((240 + c.toNat / 262144 - 240) * 64 + (128 + c.toNat / 4096 % 64 - 128)) * 64 +
              (128 + c.toNat / 64 % 64 - 128)) * 64 + (128 + c.toNat % 64 - 128) = c.toNat := by
            omega
          rw [e4, hofn]

theorem encChar_ne_nil (c : Char) : encChar c ≠ [] := by
  rw [encChar]
  by_cases hu : uriUnreserved c
  · simp [hu]
  · rw [if_neg hu, utf8Bytes]
    by_cases h1 : c.toNat < 128
    · simp [h1, pctByte]
    · by_cases h2 : c.toNat < 2048
      · simp [h1, h2, pctByte]
      · by_cases h3 : c.toNat < 65536
        · simp [h1, h2, h3, pctByte]
        · simp [h1, h2, h3, pctByte]

theorem decodeAux_enc_append (s : List Char) : ∀ (fuel : Nat) (t rest : List Char),
    decodeAux fuel rest = some t →
    decodeAux (s.length + fuel) (encodeURIComponent s ++ rest) = some (s ++ t) := by
  induction s with
  | nil =>
    intro fuel t rest h
    simpa [encodeURIComponent] using h
  | cons c s ih =>
    intro fuel t rest h
    have hstep := decodeStep_encChar c (encodeURIComponent s ++ rest)
    obtain ⟨a, as, ha⟩ := List.exists_cons_of_ne_nil (encChar_ne_nil c)
    have henc : encodeURIComponent (c :: s) = encChar c ++ encodeURIComponent s := by
      simp [encodeURIComponent]
    have hlen : (c :: s).length + fuel = (s.length + fuel) + 1 := by
      simp [List.length_cons]
      omega
    rw [hlen, henc, List.append_assoc, ha, List.cons_append]
    rw [ha, List.cons_append] at hstep
    rw [decodeAux, hstep]
    · simp [ih fuel t rest h]
    · simp

theorem le_length_encode (s : List Char) : s.length ≤ (encodeURIComponent s).length := by
  induction s with
  | nil => simp [encodeURIComponent]
  | cons c s ih =>
    have henc : encodeURIComponent (c :: s) = encChar c ++ encodeURIComponent s := by
      simp [encodeURIComponent]
    have h1 : 1 ≤ (encChar c).length := by
      have := encChar_ne_nil c
      cases h : encChar c with
      | nil => exact absurd h this
      | cons a as => simp
    rw [henc]
    simp only [List.length_append, List.length_cons]
    omega

theorem decodeAux_mono : ∀ (fuel : Nat) (s t : List Char),
    decodeAux fuel s = some t → decodeAux (fuel + 1) s = some t := by
  intro fuel
  induction fuel with
  | zero =>
    intro s t h
    cases s with
    | nil => simpa using h
    | cons a as => simp [decodeAux] at h
  | succ n ih =>
    intro s t h
    cases s with
    | nil => simpa using h
    | cons a as =>
      rw [decodeAux] at h
      · cases hstep : decodeStep (a :: as) with
        | none =>
          rw [hstep] at h
          simp at h
        | some p =>
          rw [hstep] at h
          obtain ⟨c, r⟩ := p
          simp only [Option.map_eq_some'] at h
          obtain ⟨u, hu, ht⟩ := h
          rw [decodeAux, hstep]
          · simp only [Option.map_eq_some']
            exact ⟨u, ih r u hu, ht⟩
          · simp
      · simp

theorem decodeAux_le {fuel fuel2 : Nat} (hle : fuel ≤ fuel2) (s t : List Char)
    (h : decodeAux fuel s = some t) : decodeAux fuel2 s = some t := by
  induction fuel2 with
  | zero =>
    have : fuel = 0 := by omega
    subst this
    exact h
  | succ n ih =>
    by_cases he : fuel = n + 1
    · subst he; exact h
    · exact decodeAux_mono n s t (ih (by omega))

theorem decode_encode (s : List Char) :
    decodeURIComponent (encodeURIComponent s) = some s := by
  have h0 : decodeAux 0 [] = some [] := rfl
  have h := decodeAux_enc_append s 0 [] [] h0
  simp only [List.append_nil] at h
  exact decodeAux_le (by simpa using le_length_encode s) _ _ h

theorem utf8Bytes_lt (n : Nat) (hn : n < 1114112) : ∀ b ∈ utf8Bytes n, b < 256 := by
  intro b hb
  rw [utf8Bytes] at hb
  by_cases h1 : n < 128
  · simp [h1] at hb
    omega
  · by_cases h2 : n < 2048
    · simp [h1, h2] at hb
      rcases hb with rfl | rfl <;> omega
    · by_cases h3 : n < 65536
      · simp [h1, h2, h3] at hb
        rcases hb with rfl | rfl | rfl <;> omega
      · simp [h1, h2, h3] at hb
        rcases hb with rfl | rfl | rfl | rfl <;> omega

theorem hexDigitChar_ne (n : Nat) (hn : n < 16) :
    hexDigitChar n ≠ '&' ∧ hexDigitChar n ≠ '?' := by
  interval_cases n <;> exact ⟨by decide, by decide⟩

theorem mem_encChar_ne (c x : Char) (hx : x ∈ encChar c) : x ≠ '&' ∧ x ≠ '?' := by
  by_cases hu : uriUnreserved c
  · simp [encChar, hu] at hx
    subst hx
    constructor <;> intro e <;> subst e <;> exact absurd hu (by decide)
  · rw [encChar, if_neg hu] at hx
    rw [List.mem_flatMap] at hx
    obtain ⟨b, hb, hxb⟩ := hx
    have hblt : b < 256 := utf8Bytes_lt c.toNat (char_toNat_lt c) b hb
    simp [pctByte] at hxb
    rcases hxb with rfl | rfl | rfl
    · exact ⟨by decide, by decide⟩
    · exact hexDigitChar_ne (b / 16) (by omega)
    · exact hexDigitChar_ne (b % 16) (by omega)

theorem mem_encode_ne (s : List Char) (x : Char) (hx : x ∈ encodeURIComponent s) :
    x ≠ '&' ∧ x ≠ '?' := by
  rw [encodeURIComponent, List.mem_flatMap] at hx
  obtain ⟨c, _, hxc⟩ := hx
  exact mem_encChar_ne c x hxc

theorem startsWithL_append_self (p x : List Char) : startsWithL p (p ++ x) = true := by
  induction p with
  | nil => rfl
  | cons a as ih => simp [startsWithL, ih]

theorem splitOnChar_append_sep (sep : Char) (a b : List Char) (ha : ∀ c ∈ a, c ≠ sep) :
    splitOnChar sep (a ++ sep :: b) = a :: splitOnChar sep b := by
  induction a with
  | nil => simp [splitOnChar]
  | cons x xs ih =>
    have hx : x ≠ sep := ha x (by simp)
    have ih2 := ih (fun c hc => ha c (by simp [hc]))
    simp [splitOnChar, hx, ih2]

theorem getParam_url_rewrite (seg ref : List Char) :
    getParam "url".data
      ("/api/video-proxy?url=".data ++ encodeURIComponent seg ++
        "&referer=".data ++ encodeURIComponent ref) =
      some (encodeURIComponent seg) := by
  have hdrop : dropThroughChar '?'
      ("/api/video-proxy?url=".data ++ encodeURIComponent seg ++
        "&referer=".data ++ encodeURIComponent ref) =
      ("url=".data ++ encodeURIComponent seg) ++
        ('&' :: ("referer=".data ++ encodeURIComponent ref)) := by
    show dropThroughChar '?'
        ("/api/video-proxy?url=".data ++ encodeURIComponent seg ++
          "&referer=".data ++ encodeURIComponent ref) = _
    simp only [List.append_assoc]
    rfl
  have hmem : ∀ c ∈ "url=".data ++ encodeURIComponent seg, c ≠ '&' := by
    intro c hc
    rcases List.mem_append.mp hc with hc | hc
    · fin_cases hc <;> decide
    · exact (mem_encode_ne seg c hc).1
  rw [getParam, hdrop, splitOnChar_append_sep '&' _ _ hmem]
  rw [List.findSome?_cons]
  have hsw : startsWithL ("url".data ++ ['=']) ("url=".data ++ encodeURIComponent seg) = true := by
    have : "url".data ++ ['='] = "url=".data := rfl
    rw [this]
    exact startsWithL_append_self _ _
  rw [hsw]
  simp only [if_pos]
  have hlen : ("url".data).length + 1 = ("url=".data).length := rfl
  rw [hlen, List.drop_left]

theorem rewriteLine_wrap (url : List Char) (referer : Option (List Char)) (line seg : List Char)
    (ht : (trimL line).isEmpty = false)
    (hh : startsWithL "#".data (trimL line) = false)
    (hs : segResolve url (trimL line) = some seg) :
    rewriteLine url referer line =
      "/api/video-proxy?url=".data ++ encodeURIComponent seg ++
        "&referer=".data ++ encodeURIComponent (jsOr referer url) := by
  simp [rewriteLine, ht, hh, hs]

theorem rewriteLine_passthrough (url : List Char) (referer : Option (List Char)) (line : List Char)
    (h : ((trimL line).isEmpty || startsWithL "#".data (trimL line)) = true ∨
      segResolve url (trimL line) = none) :
    rewriteLine url referer line = trimL line := by
  rw [rewriteLine]
  by_cases hc : ((trimL line).isEmpty || startsWithL "#".data (trimL line)) = true
  · simp [hc]
  · rcases h with h | h
    · exact absurd h hc
    · simp [hc, h]

/-- C1 (amended): the playlist rewrite preserves the number and order of
lines, and every line that after trimming is empty or starts with `#`, and
every line whose URL resolution fails, is passed through as its trimmed
self (not verbatim: leading and trailing whitespace is stripped, which is
what the counterexample below exhibits). -/
theorem c1_manifest_rewrite (url : List Char) (referer : Option (List Char)) (body : List Char) :
    (rewriteLines url referer body).length = (splitLines body).length ∧
    ∀ i line, (splitLines body).get? i = some line →
      ((((trimL line).isEmpty || startsWithL "#".data (trimL line)) = true →
          (rewriteLines url referer body).get? i = some (trimL line)) ∧
       (segResolve url (trimL line) = none →
          (rewriteLines url referer body).get? i = some (trimL line))) := by
  constructor
  · simp [rewriteLines]
  · intro i line hline
    have hmap : (rewriteLines url referer body).get? i =
        ((splitLines body).get? i).map (rewriteLine url referer) := by
      simp [rewriteLines, List.get?_map]
    constructor
    · intro hcond
      rw [hmap, hline]
      simp [rewriteLine_passthrough url referer line (Or.inl hcond)]
    · intro hres
      rw [hmap, hline]
      simp [rewriteLine_passthrough url referer line (Or.inr hres)]

/-- C1 counterexample: a tag line with leading whitespace is emitted
trimmed, so comment lines are not preserved verbatim as the claim states. -/
theorem c1_cex :
    rewriteLines "https://host/index.m3u8".data none " #EXTM3U".data = ["#EXTM3U".data] ∧
    ["#EXTM3U".data] ≠ ([" #EXTM3U".data] : List (List Char)) := by
  decide

/-- C1 witness: the amended theorem evaluated on a concrete playlist with a
tag line, an unresolvable line and a segment line. -/
theorem c1_wit :
    (rewriteLines "https://host/path/index.m3u8".data none
        "#EXTM3U\nhttps://\nseg1.ts".data).length =
      (splitLines "#EXTM3U\nhttps://\nseg1.ts".data).length ∧
    (rewriteLines "https://host/path/index.m3u8".data none
        "#EXTM3U\nhttps://\nseg1.ts".data).get? 0 = some "#EXTM3U".data ∧
    (rewriteLines "https://host/path/index.m3u8".data none
        "#EXTM3U\nhttps://\nseg1.ts".data).get? 1 = some "https://".data := by
  refine ⟨(c1_manifest_rewrite _ none _).1, ?_, ?_⟩
  · have h := ((c1_manifest_rewrite "https://host/path/index.m3u8".data none
        "#EXTM3U\nhttps://\nseg1.ts".data).2 0 "#EXTM3U".data (by decide)).1 (by decide)
    simpa using h
  · have h := ((c1_manifest_rewrite "https://host/path/index.m3u8".data none
        "#EXTM3U\nhttps://\nseg1.ts".data).2 1 "https://".data (by decide)).2 (by decide)
    simpa using h

/-- C2: for every line the manifest branch rewrites, decoding the `url`
query parameter of the rewritten line gives back exactly the line resolved
against the manifest URL itself; in particular `seg1.ts` in a manifest
fetched from `https://host/path/index.m3u8` wraps
`https://host/path/seg1.ts`. -/
theorem c2_segment_resolution (url : List Char) (referer : Option (List Char)) (line seg : List Char)
    (ht : (trimL line).isEmpty = false)
    (hh : startsWithL "#".data (trimL line) = false)
    (hs : segResolve url (trimL line) = some seg) :
    (getParam "url".data (rewriteLine url referer line)).bind decodeURIComponent = some seg ∧
    segResolve "https://host/path/index.m3u8".data "seg1.ts".data =
      some "https://host/path/seg1.ts".data := by
  constructor
  · rw [rewriteLine_wrap url referer line seg ht hh hs, getParam_url_rewrite]
    simpa using decode_encode seg
  · decide

/-- C2 witness: the concrete `seg1.ts` example of the claim. -/
theorem c2_wit :
    (getParam "url".data
        (rewriteLine "https://host/path/index.m3u8".data none "seg1.ts".data)).bind
      decodeURIComponent = some "https://host/path/seg1.ts".data :=
  (c2_segment_resolution "https://host/path/index.m3u8".data none "seg1.ts".data
    "https://host/path/seg1.ts".data (by decide) (by decide) (by decide)).1

theorem startsWithL_iff (p : List Char) : ∀ s, startsWithL p s = true ↔ ∃ r, s = p ++ r := by
  induction p with
  | nil =>
    intro s
    simp [startsWithL]
  | cons a as ih =>
    intro s
    cases s with
    | nil =>
      simp [startsWithL]
    | cons b bs =>
      rw [startsWithL]
      constructor
      · intro h
        have hab : a = b := by
          by_cases hd : a = b
          · exact hd
          · simp [hd] at h
        have h2 : startsWithL as bs = true := by
          simp [hab] at h
          exact h
        obtain ⟨r, hr⟩ := (ih bs).mp h2
        exact ⟨r, by simp [hab, hr]⟩
      · rintro ⟨r, hr⟩
        rw [List.cons_append] at hr
        injection hr with h1 h2
        subst h1
        have := (ih bs).mpr ⟨r, h2⟩
        simp [this]

theorem endsWithL_iff (p s : List Char) : endsWithL p s = true ↔ ∃ q, s = q ++ p := by
  rw [endsWithL, startsWithL_iff]
  constructor
  · rintro ⟨r, hr⟩
    refine ⟨r.reverse, ?_⟩
    have := congrArg List.reverse hr
    simpa using this
  · rintro ⟨q, hq⟩
    exact ⟨q.reverse, by simp [hq]⟩

/-- C3 (amended): the manifest branch is taken exactly when the whole URL
string, lowercased, ends in `.m3u8` — not when the URL path does; a query
string after `.m3u8` sends the request to the binary branch.  The test is
case-insensitive. -/
theorem c3_dispatch (url : List Char) :
    (videoProxyBranchOf url = ProxyBranch.manifest ↔
      ∃ p, url.map jsLower = p ++ ".m3u8".data) ∧
    videoProxyBranchOf "https://host/video.M3U8".data = ProxyBranch.manifest := by
  constructor
  · constructor
    · intro hm
      rw [videoProxyBranchOf] at hm
      by_cases h : endsWithL ".m3u8".data (url.map jsLower)
      · exact (endsWithL_iff _ _).mp h
      · rw [if_neg h] at hm
        exact absurd hm (by decide)
    · intro hex
      have h := (endsWithL_iff ".m3u8".data (url.map jsLower)).mpr hex
      rw [videoProxyBranchOf, if_pos h]
  · decide

/-- C3 counterexample: `https://host/video.m3u8?token=1` has a path ending
in `.m3u8` yet is dispatched to the binary branch, because the code tests
the whole URL string. -/
theorem c3_cex :
    pathEndsM3u8 "https://host/video.m3u8?token=1".data = true ∧
    videoProxyBranchOf "https://host/video.m3u8?token=1".data = ProxyBranch.binary ∧
    ProxyBranch.binary ≠ ProxyBranch.manifest := by
  decide

/-- C3 witness: the amended dispatch rule applied to concrete URLs of both
cases. -/
theorem c3_wit :
    videoProxyBranchOf "https://host/video.m3u8".data = ProxyBranch.manifest ∧
    videoProxyBranchOf "https://host/video.M3U8".data = ProxyBranch.manifest :=
  ⟨(c3_dispatch "https://host/video.m3u8".data).1.mpr
      ⟨"https://host/video".data, by decide⟩,
   (c3_dispatch "https://host/video.M3U8".data).2⟩

theorem bestM3u8Loop_find (b : List Char) (l : List (List Char)) :
    (∀ u, l.find? hasMarker = some u → bestM3u8Loop b l = u) ∧
    (l.find? hasMarker = none → bestM3u8Loop b l = b) := by
  induction l with
  | nil => simp [bestM3u8Loop]
  | cons x xs ih =>
    by_cases hx : hasMarker x
    · constructor
      · intro u hu
        rw [List.find?_cons_of_pos _ hx] at hu
        injection hu with hu
        subst hu
        simp [bestM3u8Loop, hx]
      · intro hu
        rw [List.find?_cons_of_pos _ hx] at hu
        cases hu
    · have hx2 : hasMarker x = false := by simpa using hx
      constructor
      · intro u hu
        rw [List.find?_cons_of_neg _ (by simp [hx2])] at hu
        simp [bestM3u8Loop, hx2]
        exact ih.1 u hu
      · intro hu
        rw [List.find?_cons_of_neg _ (by simp [hx2])] at hu
        simp [bestM3u8Loop, hx2]
        exact ih.2 hu

/-- C4: stream selection prefers the m3u8 list over the mp4 list whenever
the former is non-empty; within it, the first URL containing a marker
substring is selected whatever its capture position, and with no marker the
first-captured URL is selected. -/
theorem c4_stream_selection (m3u8 mp4 : List (List Char)) (h0 : List Char)
    (t : List (List Char)) (hm : m3u8 = h0 :: t) :
    (∀ u, m3u8.find? hasMarker = some u →
      selectStream m3u8 mp4 = some (u, StreamKind.hls) ∧ hasMarker u = true) ∧
    (m3u8.find? hasMarker = none → selectStream m3u8 mp4 = some (h0, StreamKind.hls)) := by
  subst hm
  constructor
  · intro u hu
    refine ⟨?_, ?_⟩
    · simp only [selectStream]
      rw [(bestM3u8Loop_find h0 (h0 :: t)).1 u hu]
    · have := List.find?_some hu
      simpa using this
  · intro hu
    simp only [selectStream]
    rw [(bestM3u8Loop_find h0 (h0 :: t)).2 hu]

/-- C4 witness: a marker-bearing entry is selected in both capture orders,
with an mp4 candidate present. -/
theorem c4_wit :
    selectStream ["https://x/decoy.m3u8".data, "https://x/NzIw/real.m3u8".data]
        ["https://x/a.mp4".data] =
      some ("https://x/NzIw/real.m3u8".data, StreamKind.hls) ∧
    selectStream ["https://x/NzIw/real.m3u8".data, "https://x/decoy.m3u8".data]
        ["https://x/a.mp4".data] =
      some ("https://x/NzIw/real.m3u8".data, StreamKind.hls) :=
  ⟨((c4_stream_selection _ ["https://x/a.mp4".data] _ _ rfl).1 _ (by decide)).1,
   ((c4_stream_selection _ ["https://x/a.mp4".data] _ _ rfl).1 _ (by decide)).1⟩

theorem extractLoop_cons_skip
    (attempt : List Char → Option (List (List Char) × List (List Char)))
    (isMovie : Bool) (url : List Char) (x : Source) (rest : List Source)
    (hb : buildSourceUrl isMovie x url = none) :
    extractLoop attempt isMovie url (x :: rest) = extractLoop attempt isMovie url rest := by
  simp only [extractLoop, hb]

theorem extractLoop_cons_err
    (attempt : List Char → Option (List (List Char) × List (List Char)))
    (isMovie : Bool) (url : List Char) (x : Source) (rest : List Source) (pageUrl : List Char)
    (hb : buildSourceUrl isMovie x url = some pageUrl) (hat : attempt pageUrl = none) :
    extractLoop attempt isMovie url (x :: rest) =
      ((extractLoop attempt isMovie url rest).1, (extractLoop attempt isMovie url rest).2 + 1) := by
  simp only [extractLoop, hb, hat]

theorem extractLoop_cons_miss
    (attempt : List Char → Option (List (List Char) × List (List Char)))
    (isMovie : Bool) (url : List Char) (x : Source) (rest : List Source) (pageUrl : List Char)
    (m3 m4 : List (List Char))
    (hb : buildSourceUrl isMovie x url = some pageUrl) (hat : attempt pageUrl = some (m3, m4))
    (hsel : selectStream m3 m4 = none) :
    extractLoop attempt isMovie url (x :: rest) =
      ((extractLoop attempt isMovie url rest).1, (extractLoop attempt isMovie url rest).2 + 1) := by
  simp only [extractLoop, hb, hat, hsel]

theorem extractLoop_cons_hit
    (attempt : List Char → Option (List (List Char) × List (List Char)))
    (isMovie : Bool) (url : List Char) (x : Source) (rest : List Source) (pageUrl : List Char)
    (m3 m4 : List (List Char)) (u : List Char) (k : StreamKind)
    (hb : buildSourceUrl isMovie x url = some pageUrl) (hat : attempt pageUrl = some (m3, m4))
    (hsel : selectStream m3 m4 = some (u, k)) :
    extractLoop attempt isMovie url (x :: rest) = (some (u, k, x), 1) := by
  simp only [extractLoop, hb, hat, hsel]

theorem sourceYield_eq
    (attempt : List Char → Option (List (List Char) × List (List Char)))
    (isMovie : Bool) (url : List Char) (x : Source) :
    sourceYield attempt isMovie url x =
      match buildSourceUrl isMovie x url with
      | none => none
      | some pageUrl =>
        match attempt pageUrl with
        | none => none
        | some (m3, m4) => selectStream m3 m4 := rfl

theorem extractLoop_first_yield
    (attempt : List Char → Option (List (List Char) × List (List Char)))
    (isMovie : Bool) (url : List Char) :
    ∀ (srcs : List Source) (u : List Char) (k : StreamKind) (s : Source),
      (extractLoop attempt isMovie url srcs).1 = some (u, k, s) →
      ∃ pre post, srcs = pre ++ s :: post ∧
        (∀ x ∈ pre, sourceYield attempt isMovie url x = none) ∧
        sourceYield attempt isMovie url s = some (u, k) := by
  intro srcs
  induction srcs with
  | nil =>
    intro u k s h
    simp [extractLoop] at h
  | cons x rest ih =>
    intro u k s h
    rcases hb : buildSourceUrl isMovie x url with _ | pageUrl
    · rw [extractLoop_cons_skip attempt isMovie url x rest hb] at h
      obtain ⟨pre, post, h1, h2, h3⟩ := ih u k s h
      refine ⟨x :: pre, post, by simp [h1], ?_, h3⟩
      intro y hy
      rcases List.mem_cons.mp hy with rfl | hy
      · simp only [sourceYield_eq, hb]
      · exact h2 y hy
    · rcases hat : attempt pageUrl with _ | ⟨m3, m4⟩
      · rw [extractLoop_cons_err attempt isMovie url x rest pageUrl hb hat] at h
        simp only [] at h
        obtain ⟨pre, post, h1, h2, h3⟩ := ih u k s h
        refine ⟨x :: pre, post, by simp [h1], ?_, h3⟩
        intro y hy
        rcases List.mem_cons.mp hy with rfl | hy
        · simp only [sourceYield_eq, hb, hat]
        · exact h2 y hy
      · rcases hsel : selectStream m3 m4 with _ | ⟨u2, k2⟩
        · rw [extractLoop_cons_miss attempt isMovie url x rest pageUrl m3 m4 hb hat hsel] at h
          simp only [] at h
          obtain ⟨pre, post, h1, h2, h3⟩ := ih u k s h
          refine ⟨x :: pre, post, by simp [h1], ?_, h3⟩
          intro y hy
          rcases List.mem_cons.mp hy with rfl | hy
          · simp only [sourceYield_eq, hb, hat, hsel]
          · exact h2 y hy
        · rw [extractLoop_cons_hit attempt isMovie url x rest pageUrl m3 m4 u2 k2 hb hat hsel] at h
          have h2 : some (u2, k2, x) = some (u, k, s) := h
          injection h2 with h3
          injection h3 with h4 h5
          injection h5 with h6 h7
          subst h4
          subst h6
          subst h7
          refine ⟨[], rest, rfl, by simp, ?_⟩
          simp only [sourceYield_eq, hb, hat, hsel]

/-- C5 (amended): whenever the provider loop returns a stream, the
providers before the succeeding one in list order all yielded nothing, the
configured list is in strictly ascending priority order, and the success
response's `source` field is always the literal `multiple_sources` — the
succeeding provider's name is never reported. -/
theorem c5_provider_order
    (attempt : List Char → Option (List (List Char) × List (List Char)))
    (isMovie : Bool) (url : List Char) (srcs : List Source)
    (u : List Char) (k : StreamKind) (s : Source)
    (h : (extractLoop attempt isMovie url srcs).1 = some (u, k, s)) :
    (∃ pre post, srcs = pre ++ s :: post ∧
      (∀ x ∈ pre, sourceYield attempt isMovie url x = none) ∧
      sourceYield attempt isMovie url s = some (u, k)) ∧
    List.Chain' (fun a b => a < b) (SOURCES.map Source.priority) ∧
    ∀ v isTV, (buildExtractResponse v isTV).source = "multiple_sources".data := by
  refine ⟨extractLoop_first_yield attempt isMovie url srcs u k s h, ?_, ?_⟩
  · show List.Chain' (fun a b => a < b) [1, 2]
    simp
  · intro v isTV
    rfl

/-- C5 counterexample: with vidlink.pro failing and moviesapi.to
succeeding, the endpoint succeeds from moviesapi.to but its response
`source` field is `multiple_sources`, not the provider name that the claim
says is reported. -/
theorem c5_cex :
    (extractStreamA (some "https://x/tv/100/1/2".data) attemptC5).1 =
      ExtractOutcome.ok (buildExtractResponse "https://cdn.example/real.m3u8".data true) ∧
    (buildExtractResponse "https://cdn.example/real.m3u8".data true).source =
      "multiple_sources".data ∧
    "multiple_sources".data ≠ "moviesapi.to".data ∧
    sourceYield attemptC5 false "https://x/tv/100/1/2".data vidlinkSource = none ∧
    sourceYield attemptC5 false "https://x/tv/100/1/2".data moviesapiSource =
      some ("https://cdn.example/real.m3u8".data, StreamKind.hls) := by
  refine ⟨by decide, rfl, by decide, by decide, by decide⟩

/-- C5 witness: the amended theorem applied to the concrete two-provider
run in which the first provider yields nothing. -/
theorem c5_wit :
    (∃ pre post, SOURCES = pre ++ moviesapiSource :: post ∧
      (∀ x ∈ pre, sourceYield attemptC5 false "https://x/tv/100/1/2".data x = none) ∧
      sourceYield attemptC5 false "https://x/tv/100/1/2".data moviesapiSource =
        some ("https://cdn.example/real.m3u8".data, StreamKind.hls)) ∧
    List.Chain' (fun a b => a < b) (SOURCES.map Source.priority) ∧
    ∀ v isTV, (buildExtractResponse v isTV).source = "multiple_sources".data :=
  c5_provider_order attemptC5 false "https://x/tv/100/1/2".data SOURCES
    "https://cdn.example/real.m3u8".data StreamKind.hls moviesapiSource rfl

theorem extractLoop_tv_none
    (attempt : List Char → Option (List (List Char) × List (List Char)))
    (url : List Char) (hx : tvMatchOf url = none) :
    ∀ srcs, extractLoop attempt false url srcs = (none, 0) := by
  intro srcs
  induction srcs with
  | nil => rfl
  | cons x rest ih =>
    have hb : buildSourceUrl false x url = none := by
      simp [buildSourceUrl, hx]
    rw [extractLoop_cons_skip attempt false url x rest hb, ih]

/-- C6 (amended): a TV URL that fails the episode regex is skipped by
every provider without opening a page, and the endpoint answers with the
404 exhaustion response, not the 400 the claim states. -/
theorem c6_tv_missing (url : List Char)
    (attempt : List Char → Option (List (List Char) × List (List Char)))
    (hm : containsSub url "/movie/".data = false)
    (ht : containsSub url "/tv/".data = true)
    (hx : tvMatchOf url = none) :
    extractStreamA (some url) attempt =
      (ExtractOutcome.notFound (SOURCES.map Source.name), 0) ∧
    extractStatusOf (extractStreamA (some url) attempt).1 = 404 := by
  have hne : url.isEmpty = false := by
    cases url with
    | nil => simp [containsSub] at ht
    | cons a as => rfl
  have hloop := extractLoop_tv_none attempt url hx SOURCES
  have hmain : extractStreamA (some url) attempt =
      (ExtractOutcome.notFound (SOURCES.map Source.name), 0) := by
    simp only [extractStreamA, hne, hm, ht, hloop, Bool.false_eq_true, if_false,
      not_false_eq_true, not_true_eq_false, and_false, if_neg]
  refine ⟨hmain, ?_⟩
  rw [hmain]
  rfl

/-- C6 counterexample: a TV URL missing the episode segment produces the
404 not-found outcome, not a 400 bad-request. -/
theorem c6_cex :
    extractStreamA (some "https://vidlink.pro/tv/123/1".data) (fun _ => none) =
      (ExtractOutcome.notFound ["vidlink.pro".data, "moviesapi.to".data], 0) ∧
    extractStatusOf
        (extractStreamA (some "https://vidlink.pro/tv/123/1".data) (fun _ => none)).1 = 404 ∧
    (404 : Nat) ≠ 400 := by
  refine ⟨by decide, by decide, by decide⟩

/-- C6 witness: the amended theorem applied to a concrete TV URL missing
both season and episode. -/
theorem c6_wit :
    extractStreamA (some "https://moviesapi.to/tv/55".data) (fun _ => none) =
      (ExtractOutcome.notFound (SOURCES.map Source.name), 0) ∧
    extractStatusOf (extractStreamA (some "https://moviesapi.to/tv/55".data) (fun _ => none)).1 =
      404 :=
  c6_tv_missing "https://moviesapi.to/tv/55".data (fun _ => none)
    (by decide) (by decide) (by decide)

/-- C7 (amended): `/api/stream` forces status 206 on any inbound `Range`
header and 200 on none, regardless of the upstream status, and its
`Content-Range` total is the literal `undefined` because `response.data` is
a stream without a `length`; the `/api/video-proxy` binary branch, in
contrast, propagates the upstream status and `Content-Range` verbatim. -/
theorem c7_range_headers (range : Option (List Char)) (up : Upstream)
    (hd : up.dataLength = none) :
    (apiStreamRespond none up).status = 200 ∧
    (∀ rg, range = some rg →
      (apiStreamRespond range up).status = 206 ∧
      ∃ a b, (apiStreamRespond range up).contentRange =
        some ("bytes ".data ++ a ++ ['-'] ++ b ++ ['/'] ++ "undefined".data)) ∧
    (videoProxyBinary up).status = up.status ∧
    (videoProxyBinary up).contentRange = up.contentRange := by
  refine ⟨rfl, ?_, rfl, rfl⟩
  intro rg hr
  subst hr
  constructor
  · rfl
  · simp only [apiStreamRespond, hd]
    exact ⟨_, _, rfl⟩

/-- C7 counterexample: with upstream content length 1000, the Range
response carries `bytes 100-199/undefined`, not a total consistent with
the upstream length; and an upstream 206 with no inbound range is answered
with 200, not the propagated status. -/
theorem c7_cex :
    (apiStreamRespond (some "bytes=100-199".data)
        ⟨200, none, some "1000".data, none, none, none⟩).contentRange =
      some "bytes 100-199/undefined".data ∧
    some "bytes 100-199/undefined".data ≠ some "bytes 100-199/1000".data ∧
    (apiStreamRespond none ⟨206, none, none, none, none, none⟩).status = 200 ∧
    (200 : Nat) ≠ 206 := by
  refine ⟨by decide, by decide, rfl, by decide⟩

/-- C7 witness: the amended theorem applied at concrete upstream
responses with and without an inbound range. -/
theorem c7_wit :
    (apiStreamRespond none
      ⟨206, none, some "1000".data, none, none, none⟩).status = 200 ∧
    (apiStreamRespond (some "bytes=100-199".data)
      ⟨200, none, some "1000".data, none, none, none⟩).status = 206 ∧
    (videoProxyBinary ⟨206, none, none, none, some "bytes 100-199/1000".data, none⟩).status =
      206 :=
  ⟨(c7_range_headers none ⟨206, none, some "1000".data, none, none, none⟩ rfl).1,
   ((c7_range_headers (some "bytes=100-199".data)
      ⟨200, none, some "1000".data, none, none, none⟩ rfl).2.1 _ rfl).1,
   (c7_range_headers none
      ⟨206, none, none, none, some "bytes 100-199/1000".data, none⟩ rfl).2.2.1⟩

/-- C8 (amended): the fallback scanner selects, in a single pass in
candidate order, the first candidate that survives the ad filter and
matches any of `//`, `/` or `http`, normalizing it; and on the claim's DOM
example it returns `https://cdn.example/a.mp4`. -/
theorem c8_fallback_scan :
    (∀ (o : List Char) (cands : List (List Char)) (s : List Char),
      pickCandidate o cands = some s →
      ∃ pre src post, cands = pre ++ src :: post ∧
        (∀ x ∈ pre, candidateSkipped x = true) ∧
        candidateSkipped src = false ∧ s = candidateNorm o src) ∧
    pickCandidate "https://page.example".data ["//cdn.example/a.mp4".data] =
      some "https://cdn.example/a.mp4".data := by
  constructor
  · intro o cands
    induction cands with
    | nil =>
      intro s h
      simp [pickCandidate] at h
    | cons src rest ih =>
      intro s h
      rw [pickCandidate] at h
      by_cases h1 : src.isEmpty
      · rw [if_pos h1] at h
        obtain ⟨pre, src2, post, e1, e2, e3, e4⟩ := ih s h
        refine ⟨src :: pre, src2, post, by simp [e1], ?_, e3, e4⟩
        intro x hx
        rcases List.mem_cons.mp hx with rfl | hx
        · simp [candidateSkipped, h1]
        · exact e2 x hx
      · rw [if_neg h1] at h
        by_cases h2 : adFiltered src
        · rw [if_pos h2] at h
          obtain ⟨pre, src2, post, e1, e2, e3, e4⟩ := ih s h
          refine ⟨src :: pre, src2, post, by simp [e1], ?_, e3, e4⟩
          intro x hx
          rcases List.mem_cons.mp hx with rfl | hx
          · simp [candidateSkipped, h2]
          · exact e2 x hx
        · rw [if_neg h2] at h
          by_cases h3 : startsWithL "//".data src
          · rw [if_pos h3] at h
            injection h with h
            refine ⟨[], src, rest, rfl, by simp, ?_, ?_⟩
            · simp [candidateSkipped, h1, h2, h3]
            · rw [candidateNorm, if_pos h3]
              exact h.symm
          · rw [if_neg h3] at h
            by_cases h4 : startsWithL "/".data src
            · rw [if_pos h4] at h
              injection h with h
              refine ⟨[], src, rest, rfl, by simp, ?_, ?_⟩
              · simp [candidateSkipped, h1, h2, h4]
              · rw [candidateNorm, if_neg h3, if_pos h4]
                exact h.symm
            · rw [if_neg h4] at h
              by_cases h5 : startsWithL "http".data src
              · rw [if_pos h5] at h
                injection h with h
                refine ⟨[], src, rest, rfl, by simp, ?_, ?_⟩
                · simp [candidateSkipped, h1, h2, h5]
                · rw [candidateNorm, if_neg h3, if_neg h4]
                  exact h.symm
              · rw [if_neg h5] at h
                obtain ⟨pre, src2, post, e1, e2, e3, e4⟩ := ih s h
                refine ⟨src :: pre, src2, post, by simp [e1], ?_, e3, e4⟩
                intro x hx
                rcases List.mem_cons.mp hx with rfl | hx
                · simp [candidateSkipped, h1, h2, h3, h4, h5]
                · exact e2 x hx
  · decide

/-- C8 counterexample: with a protocol-relative candidate captured before
an absolute `http` candidate, the code returns the protocol-relative one,
not the `http` one that the claim's priority order requires. -/
theorem c8_cex :
    pickCandidate "https://page.example".data
        ["//cdn.example/a.mp4".data, "http://b.example/b.mp4".data] =
      some "https://cdn.example/a.mp4".data ∧
    specPrioritySelect "https://page.example".data
        ["//cdn.example/a.mp4".data, "http://b.example/b.mp4".data] =
      some "http://b.example/b.mp4".data ∧
    ("https://cdn.example/a.mp4".data : List Char) ≠ "http://b.example/b.mp4".data := by
  refine ⟨by decide, by decide, by decide⟩

/-- C8 witness: the amended theorem applied to the single-candidate DOM
example of the claim. -/
theorem c8_wit :
    ∃ pre src post,
      (["//cdn.example/a.mp4".data] : List (List Char)) = pre ++ src :: post ∧
      (∀ x ∈ pre, candidateSkipped x = true) ∧
      candidateSkipped src = false ∧
      ("https://cdn.example/a.mp4".data : List Char) =
        candidateNorm "https://page.example".data src :=
  c8_fallback_scan.1 "https://page.example".data ["//cdn.example/a.mp4".data]
    "https://cdn.example/a.mp4".data c8_fallback_scan.2

theorem runExtractIters_le_one : ∀ ends : List IterEnd, runExtractIters 0 ends ≤ 1 := by
  intro ends
  induction ends with
  | nil => simp [runExtractIters]
  | cons e rest ih =>
    cases e
    · simp [runExtractIters, runExtractIter]
    · simpa [runExtractIters, runExtractIter] using ih
    · simpa [runExtractIters, runExtractIter] using ih
    · simpa [runExtractIters, runExtractIter] using ih

/-- C9 (amended): the `/api/extract-stream` handler closes its page in a
finally block on every exit path, but the per-request browser launched by
`/api/stream` is only closed on the path that reaches the explicit close
after navigation — any failure from `newPage` up to that close leaves the
browser (and its page) open when the handler returns. -/
theorem c9_resource_release :
    (∀ ends : List IterEnd, extractFinallyPages (runExtractIters 0 ends) = 0) ∧
    (runApiStream none).browserOpen = false ∧
    (∀ i, 1 ≤ i → i ≤ 7 → (runApiStream (some i)).browserOpen = true) := by
  refine ⟨?_, by decide, ?_⟩
  · intro ends
    have h := runExtractIters_le_one ends
    rw [extractFinallyPages]
    omega
  · intro i ha hb
    interval_cases i <;> decide

/-- C9 counterexample: a navigation failure in `/api/stream` returns with
the per-request browser and page still open. -/
theorem c9_cex :
    (runApiStream (some 4)).browserOpen = true ∧
    (runApiStream (some 4)).pageOpen = true := by
  refine ⟨by decide, by decide⟩

/-- C9 witness: the amended theorem applied to a concrete extract-stream
iteration trace and the concrete navigation-failure index. -/
theorem c9_wit :
    extractFinallyPages (runExtractIters 0 [IterEnd.threw, IterEnd.success]) = 0 ∧
    (runApiStream (some 4)).browserOpen = true :=
  ⟨c9_resource_release.1 [IterEnd.threw, IterEnd.success],
   c9_resource_release.2.2 4 (by decide) (by decide)⟩

theorem find?_map_setKey (hs : List (List Char × List Char)) (k v : List Char)
    (h : hs.any (fun p => p.1 = k) = true) :
    (hs.map (fun p => if p.1 = k then (k, v) else p)).find? (fun p => p.1 = k) = some (k, v) := by
  induction hs with
  | nil => simp at h
  | cons p rest ih =>
    by_cases hp : p.1 = k
    · simp [List.find?, hp]
    · have h2 : rest.any (fun q => q.1 = k) = true := by
        simpa [List.any_cons, hp] using h
      simp [List.find?, hp, ih h2]

theorem find?_map_setKey_ne (k v k2 : List Char) (hne : k2 ≠ k)
    (hs : List (List Char × List Char)) :
    (hs.map (fun p => if p.1 = k then (k, v) else p)).find? (fun p => p.1 = k2) =
      hs.find? (fun p => p.1 = k2) := by
  induction hs with
  | nil => rfl
  | cons p rest ih =>
    by_cases hp : p.1 = k
    · have e1 : decide ((k, v).1 = k2) = false := by
        simp only [decide_eq_false_iff_not]
        exact fun e => hne e.symm
      have e2 : decide (p.1 = k2) = false := by
        simp only [decide_eq_false_iff_not, hp]
        exact fun e => hne e.symm
      rw [List.map_cons, if_pos hp]
      simp only [List.find?, e1, e2]
      exact ih
    · rw [List.map_cons, if_neg hp]
      by_cases hq : p.1 = k2
      · have e3 : decide (p.1 = k2) = true := by
          simp [hq]
        simp only [List.find?, e3]
      · have e4 : decide (p.1 = k2) = false := by
          simp [hq]
        simp only [List.find?, e4]
        exact ih

theorem getHeader_setKey_self (hs : List (List Char × List Char)) (k v : List Char) :
    getHeader (setKey hs k v) k = some v := by
  rw [setKey]
  by_cases h : hs.any (fun p => p.1 = k)
  · rw [if_pos h, getHeader, find?_map_setKey hs k v h]
    rfl
  · rw [if_neg h, getHeader]
    have hnone : hs.find? (fun p => p.1 = k) = none := by
      rw [List.find?_eq_none]
      intro q hq hc
      exact h (List.any_eq_true.mpr ⟨q, hq, hc⟩)
    rw [List.find?_append, hnone]
    simp [List.find?]

theorem getHeader_setKey_ne (hs : List (List Char × List Char)) (k v k2 : List Char)
    (hne : k2 ≠ k) : getHeader (setKey hs k v) k2 = getHeader hs k2 := by
  rw [setKey]
  by_cases h : hs.any (fun p => p.1 = k)
  · rw [if_pos h, getHeader, getHeader, find?_map_setKey_ne k v k2 hne hs]
  · rw [if_neg h, getHeader, getHeader, List.find?_append]
    have hsingle : ([(k, v)].find? (fun p => p.1 = k2)) = none := by
      have hd : decide (k = k2) = false := by
        simp
        exact fun e => hne e.symm
      simp [List.find?, hd]
    rw [hsingle]
    simp

theorem getHeader_objAssign_not_mem (kvs : List (List Char × List Char)) :
    ∀ (base : List (List Char × List Char)) (k : List Char),
      k ∉ kvs.map Prod.fst →
      getHeader (objAssign base kvs) k = getHeader base k := by
  induction kvs with
  | nil =>
    intro base k _
    rfl
  | cons p rest ih =>
    intro base k hk
    simp only [List.map_cons, List.mem_cons, not_or] at hk
    show getHeader (objAssign (setKey base p.1 p.2) rest) k = _
    rw [ih (setKey base p.1 p.2) k hk.2]
    exact getHeader_setKey_ne base p.1 p.2 k hk.1

theorem getHeader_objAssign_mem (kvs : List (List Char × List Char)) :
    ∀ (base : List (List Char × List Char)) (k v : List Char),
      (kvs.map Prod.fst).Nodup → (k, v) ∈ kvs →
      getHeader (objAssign base kvs) k = some v := by
  induction kvs with
  | nil =>
    intro base k v _ hmem
    simp at hmem
  | cons p rest ih =>
    intro base k v hnd hmem
    simp only [List.map_cons, List.nodup_cons] at hnd
    show getHeader (objAssign (setKey base p.1 p.2) rest) k = some v
    rcases List.mem_cons.mp hmem with rfl | hmem2
    · have hk : k ∉ rest.map Prod.fst := by
        simpa using hnd.1
      rw [getHeader_objAssign_not_mem rest (setKey base (k, v).1 (k, v).2) k hk]
      exact getHeader_setKey_self base k v
    · exact ih (setKey base p.1 p.2) k v hnd.2 hmem2

/-- C10 (amended): in the `part_000` variant of `/api/stream` the decoded
`headers=` JSON is merged over the defaults and sent wholesale, so each
custom pair is client-controllable; in the `server.js` variant the outbound
request is rebuilt from scratch and only the lowercase `referer` and
`origin` entries of the merged map are consulted — every other custom pair
is dropped.  A decode or parse failure keeps the defaults in both. -/
theorem c10_headers (url : List Char) :
    (apiStreamCustomHeaders url = none → partStreamOutbound url = partStreamDefaults) ∧
    (∀ kvs, apiStreamCustomHeaders url = some kvs →
      partStreamOutbound url = objAssign partStreamDefaults kvs ∧
      ((kvs.map Prod.fst).Nodup → ∀ k v, (k, v) ∈ kvs →
        getHeader (partStreamOutbound url) k = some v) ∧
      (∀ k, k ≠ "User-Agent".data → k ≠ "Referer".data → k ≠ "Origin".data →
        k ≠ "Accept".data → k ≠ "Accept-Encoding".data → k ≠ "Connection".data →
        getHeader (serverStreamOutbound url) k = none)) := by
  constructor
  · intro h
    simp [partStreamOutbound, h]
  · intro kvs h
    have hout : partStreamOutbound url = objAssign partStreamDefaults kvs := by
      simp [partStreamOutbound, h]
    refine ⟨hout, ?_, ?_⟩
    · intro hnd k v hmem
      rw [hout]
      exact getHeader_objAssign_mem kvs partStreamDefaults k v hnd hmem
    · intro k h1 h2 h3 h4 h5 h6
      have e1 : decide ("User-Agent".data = k) = false := by
        simp only [decide_eq_false_iff_not]
        exact fun e => h1 e.symm
      have e2 : decide ("Referer".data = k) = false := by
        simp only [decide_eq_false_iff_not]
        exact fun e => h2 e.symm
      have e3 : decide ("Origin".data = k) = false := by
        simp only [decide_eq_false_iff_not]
        exact fun e => h3 e.symm
      have e4 : decide ("Accept".data = k) = false := by
        simp only [decide_eq_false_iff_not]
        exact fun e => h4 e.symm
      have e5 : decide ("Accept-Encoding".data = k) = false := by
        simp only [decide_eq_false_iff_not]
        exact fun e => h5 e.symm
      have e6 : decide ("Connection".data = k) = false := by
        simp only [decide_eq_false_iff_not]
        exact fun e => h6 e.symm
      simp only [serverStreamOutbound, getHeader, List.find?, e1, e2, e3, e4, e5, e6]
      rfl

/-- C10 counterexample: a smuggled `Referer` pair parses and merges, yet
the `server.js` outbound request still carries the default referer — the
claim that each JSON pair overrides the outbound defaults fails there. -/
theorem c10_cex :
    apiStreamCustomHeaders evilUrl =
      some [("Referer".data, "https://evil.example/".data)] ∧
    getHeader (serverStreamOutbound evilUrl) "Referer".data =
      some "https://vidlink.pro/".data ∧
    getHeader (partStreamOutbound evilUrl) "Referer".data =
      some "https://evil.example/".data ∧
    some "https://vidlink.pro/".data ≠ some "https://evil.example/".data := by
  refine ⟨by decide, by decide, by decide, by decide⟩

/-- C10 witness: a custom `X-Custom` header reaches the outbound request
in the `part_000` variant and is dropped by the `server.js` variant. -/
theorem c10_wit :
    getHeader (partStreamOutbound customUrl) "X-Custom".data = some "1".data ∧
    getHeader (serverStreamOutbound customUrl) "X-Custom".data = none :=
  ⟨by
    have h := ((c10_headers customUrl).2 [("X-Custom".data, "1".data)] (by decide)).2.1
      (by decide) "X-Custom".data "1".data (by decide)
    exact h,
   ((c10_headers customUrl).2 [("X-Custom".data, "1".data)] (by decide)).2.2
     "X-Custom".data (by decide) (by decide) (by decide) (by decide) (by decide) (by decide)⟩
